import Mathlib

/-!
# Verification of `cnvlib/samutil.py` (BAM utilities)

Shallow embedding of the module's four operations:

* `bam_total_reads`  — sums the mapped-read counts from index statistics lines;
* `ensure_bam_index` — ensures an up-to-date BAM index file exists;
* `ensure_bam_sorted`— probes whether a sampled record sequence is ordered;
* `is_newer_than`    — filesystem freshness comparison.

The filesystem is modelled as a structure giving, for every path, whether it
is a regular file and its modification time (an integer timestamp; only the
ordering of timestamps matters to the code).  The external `pysam.index`
capability is a parameter: a function from filesystem states to filesystem
states.  Python exceptions (`ValueError` from tuple unpacking / `int()`,
`AssertionError` from the `assert`) are modelled with `Except String`.

Python string primitives (`str.split()` with no argument, `int()` on a
whitespace-free token, `<=` on strings) are embedded as structural functions
over `List Char` so that every definition evaluates inside the kernel.
-/

namespace Samutil

/-- Splitter behind Python `str.split()` with no argument: split on runs of
whitespace and discard empty fields.  `cur` holds the current field's
characters in reverse. -/
def fieldsAux : List Char → List Char → List (List Char)
  | [], cur => if cur.isEmpty then [] else [cur.reverse]
  | c :: cs, cur =>
    if c.isWhitespace then
      if cur.isEmpty then fieldsAux cs [] else cur.reverse :: fieldsAux cs []
    else fieldsAux cs (c :: cur)

/-- Python `line.split()`: the line's maximal whitespace-free fields. -/
def pySplit (s : String) : List (List Char) :=
  fieldsAux s.data []

/-- Value of a string of decimal digits (most significant first). -/
def digitsVal : List Char → Nat → Nat
  | [], acc => acc
  | c :: cs, acc => digitsVal cs (acc * 10 + (c.toNat - 48))

/-- A nonempty all-digit token. -/
def allDigits (l : List Char) : Bool :=
  !l.isEmpty && l.all Char.isDigit

/-- Python `int()` on a whitespace-free token: an optional sign followed by
at least one decimal digit; anything else raises `ValueError` (here `none`). -/
def pyInt? : List Char → Option Int
  | '-' :: rest => if allDigits rest then some (-(digitsVal rest 0 : Int)) else none
  | '+' :: rest => if allDigits rest then some ((digitsVal rest 0 : Int)) else none
  | s => if allDigits s then some ((digitsVal s 0 : Int)) else none

/-- The loop of `bam_total_reads`: for each line, unpack
`_seqname, _seqlen, nmapped, _nunmapped = line.split()` (a `ValueError` unless
the line splits into exactly four fields), then add `int(nmapped)` to the
accumulator (`int` raising `ValueError` on a non-numeric field). -/
def btrGo : List String → Int → Except String Int
  | [], acc => Except.ok acc
  | line :: rest, acc =>
    match pySplit line with
    | [_seqname, _seqlen, nmapped, _nunmapped] =>
      match pyInt? nmapped with
      | some n => btrGo rest (acc + n)
      | none => Except.error "ValueError: invalid literal for int()"
    | _ => Except.error "ValueError: cannot unpack line into four fields"

/-- `bam_total_reads`, embedded over the list of index-statistics lines
produced by the external `pysam.idxstats` capability.  The embedding is a
pure function: it has no side effects by construction. -/
def bam_total_reads (lines : List String) : Except String Int :=
  btrGo lines 0

/-- The mapped-read count a well-formed stats line contributes: its third
whitespace-separated field parsed as an integer (the defaults are never used
on well-formed lines). -/
def mappedOf (line : String) : Int :=
  (pyInt? ((pySplit line).getD 2 [])).getD 0

/-- A stats line is well formed when it splits into exactly four
whitespace-separated fields and its third field parses as an integer. -/
def lineWellFormed (line : String) : Prop :=
  (pySplit line).length = 4 ∧ (pyInt? ((pySplit line).getD 2 [])).isSome = true

instance (line : String) : Decidable (lineWellFormed line) := by
  unfold lineWellFormed; infer_instance

/-- A filesystem state: which paths are regular files, and each path's
modification time.  `mtime` is consulted only on paths that are files. -/
structure FS where
  isfile : String → Bool
  mtime : String → Int

/-- `is_newer_than(target_fname, orig_fname)`:
`False` if the target is not a file, otherwise
`os.stat(target).st_mtime >= os.stat(orig).st_mtime`. -/
def is_newer_than (fs : FS) (target_fname orig_fname : String) : Bool :=
  if fs.isfile target_fname then
    decide (fs.mtime orig_fname ≤ fs.mtime target_fname)
  else
    false

/-- The candidate index path of `ensure_bam_index`: `<file>.bai` if it is a
file, else the file name with its last character replaced by `i`
(Python `bam_fname[:-1] + 'i'`). -/
def candidateIndexPath (fs : FS) (bam_fname : String) : String :=
  if fs.isfile (bam_fname ++ ".bai") then bam_fname ++ ".bai"
  else bam_fname.dropRight 1 ++ "i"

/-- Result of `ensure_bam_index`: the returned path (or the assertion
failure), the filesystem state afterwards, and whether `pysam.index` was
invoked (regeneration). -/
structure IndexResult where
  result : Except String String
  fs : FS
  regenerated : Bool

/-- `ensure_bam_index`, embedded with the external `pysam.index` capability as
a state transformer `pysamIndex`.  Mirrors the Python control flow: pick the
candidate index path; if it is not newer than the BAM, run `pysam.index` and
reset the path to `<file>.bai`; finally `assert os.path.isfile(bai_fname)`
(modelled as `Except.error` on failure) and return the path. -/
def ensure_bam_index (pysamIndex : FS → String → FS) (fs : FS) (bam_fname : String) :
    IndexResult :=
  let bai0 := candidateIndexPath fs bam_fname
  if is_newer_than fs bai0 bam_fname then
    if fs.isfile bai0 then ⟨Except.ok bai0, fs, false⟩
    else ⟨Except.error ("Failed to generate index " ++ bai0), fs, false⟩
  else
    let fs1 := pysamIndex fs bam_fname
    let bai1 := bam_fname ++ ".bai"
    if fs1.isfile bai1 then ⟨Except.ok bai1, fs1, true⟩
    else ⟨Except.error ("Failed to generate index " ++ bai1), fs1, true⟩

/-- An alignment record, with the attributes `ensure_bam_sorted` reads:
query name, reference id (`tid`), and position. -/
structure Read where
  qname : String
  tid : Int
  pos : Int

/-- Python `<=` on strings: code-point lexicographic comparison. -/
def charsLe : List Char → List Char → Bool
  | [], _ => true
  | _ :: _, [] => false
  | a :: as, b :: bs =>
    if a < b then true
    else if b < a then false
    else charsLe as bs

/-- Python `s <= t` for the query-name comparison. -/
def strLe (s t : String) : Bool :=
  charsLe s.data t.data

/-- The `out_of_order` predicate of `ensure_bam_sorted`.
`by_name=True`: `not (prev is None or prev.qname <= read.qname)`.
`by_name=False`: `not (prev is None or read.tid != prev.tid or
prev.pos <= read.pos)`. -/
def out_of_order (by_name : Bool) (read : Read) (prev : Option Read) : Bool :=
  match prev with
  | none => false
  | some p =>
    if by_name then
      !(strLe p.qname read.qname)
    else
      !(decide (read.tid ≠ p.tid) || decide (p.pos ≤ read.pos))

/-- The scan loop of `ensure_bam_sorted`: walk the records carrying the
previous record, returning `false` at the first out-of-order pair. -/
def sortedGo (by_name : Bool) : Option Read → List Read → Bool
  | _, [] => true
  | prev, r :: rest =>
    if out_of_order by_name r prev then false
    else sortedGo by_name (some r) rest

/-- `ensure_bam_sorted`, embedded over the file's record sequence.
`islice(bam, span)` is `reads.take span`. -/
def ensure_bam_sorted (reads : List Read) (by_name : Bool := false)
    (span : Nat := 50) : Bool :=
  sortedGo by_name none (reads.take span)

/-- The spec's pairwise ordering predicate (written from the specification's
words, for comparison with the code's `out_of_order`): with `byQueryName`,
non-decreasing query names under lexicographic order (`List.Lex` on the
code points); otherwise a different reference id or non-decreasing
position. -/
def specPairOk (byQueryName : Bool) (p r : Read) : Prop :=
  if byQueryName then
    p.qname.data = r.qname.data ∨ List.Lex (· < ·) p.qname.data r.qname.data
  else
    r.tid ≠ p.tid ∨ p.pos ≤ r.pos

instance (bn : Bool) (p r : Read) : Decidable (specPairOk bn p r) := by
  unfold specPairOk; infer_instance

/-! ## Helper lemmas -/

theorem list_len4 {α : Type} (l : List α) (h : l.length = 4) :
    ∃ a b c d, l = [a, b, c, d] := by
  rcases l with _ | ⟨a, _ | ⟨b, _ | ⟨c, _ | ⟨d, _ | ⟨e, t⟩⟩⟩⟩⟩
  · simp at h
  · simp at h
  · simp at h
  · simp at h
  · exact ⟨a, b, c, d, rfl⟩
  · simp [List.length_cons] at h

theorem btrGo_ok_of_wf (ls : List String) : ∀ acc : Int,
    (∀ l ∈ ls, lineWellFormed l) →
    btrGo ls acc = Except.ok (acc + (ls.map mappedOf).sum) := by
  induction ls with
  | nil => intro acc _; simp [btrGo]
  | cons line rest ih =>
    intro acc h
    obtain ⟨hlen, hsome⟩ := h line (List.mem_cons_self line rest)
    obtain ⟨a, b, c, d, hsp⟩ := list_len4 _ hlen
    rw [hsp] at hsome
    obtain ⟨n, hn⟩ := Option.isSome_iff_exists.mp (by simpa using hsome)
    have hm : mappedOf line = n := by
      unfold mappedOf
      rw [hsp]
      simp [hn]
    have hrec := ih (acc + n) (fun l hl => h l (List.mem_cons_of_mem _ hl))
    simp only [btrGo, hsp, hn, hrec, hm, List.map_cons, List.sum_cons]
    congr 1
    ring

theorem btrGo_error_of_bad (ls : List String) : ∀ acc : Int,
    (∃ l ∈ ls, (pySplit l).length ≠ 4) →
    ∃ e, btrGo ls acc = Except.error e := by
  induction ls with
  | nil => intro acc h; simp at h
  | cons line rest ih =>
    intro acc h
    by_cases hlen : (pySplit line).length = 4
    · obtain ⟨a, b, c, d, hsp⟩ := list_len4 _ hlen
      have hbad : ∃ l ∈ rest, (pySplit l).length ≠ 4 := by
        obtain ⟨l, hl, hne⟩ := h
        rcases List.mem_cons.mp hl with rfl | hmem
        · exact absurd hlen hne
        · exact ⟨l, hmem, hne⟩
      cases hn : pyInt? c with
      | some n =>
        obtain ⟨e, he⟩ := ih (acc + n) hbad
        exact ⟨e, by simp only [btrGo, hsp, hn, he]⟩
      | none =>
        exact ⟨"ValueError: invalid literal for int()", by simp only [btrGo, hsp, hn]⟩
    · refine ⟨"ValueError: cannot unpack line into four fields", ?_⟩
      simp only [btrGo]
      rcases hsp : pySplit line with _ | ⟨a, _ | ⟨b, _ | ⟨c, _ | ⟨d, _ | ⟨e', t⟩⟩⟩⟩⟩ <;>
        first
        | rfl
        | (exact absurd (by rw [hsp] at hlen ⊢; rfl) hlen)

/-! ## ReadCounter theorems -/

/-- **C1.** For every list of well-formed index-statistics lines (each
splitting into exactly four whitespace-separated fields, the third parsing as
an integer), `bam_total_reads` returns the sum over all lines of the third
field parsed as an integer.  The embedding is a pure function, so the
operation has no side effects by construction. -/
theorem bam_total_reads_sum_of_wellformed (lines : List String)
    (h : ∀ l ∈ lines, lineWellFormed l) :
    bam_total_reads lines = Except.ok ((lines.map mappedOf).sum) := by
  have := btrGo_ok_of_wf lines 0 h
  simpa [bam_total_reads] using this

/-- Witness for C1 on a concrete two-line input. -/
theorem bam_total_reads_sum_witness :
    bam_total_reads ["chr1 1000 5 2", "chr2 500 7 0"] =
      Except.ok ((["chr1 1000 5 2", "chr2 500 7 0"].map mappedOf).sum) :=
  bam_total_reads_sum_of_wellformed ["chr1 1000 5 2", "chr2 500 7 0"] (by decide)

/-- **C7.** Whenever some index-statistics line does not split into exactly
four whitespace-separated fields, `bam_total_reads` fails with an error
(Python `ValueError`, the spec's `FormatError`); no partial sum is returned. -/
theorem bam_total_reads_error_of_malformed (lines : List String)
    (h : ∃ l ∈ lines, (pySplit l).length ≠ 4) :
    ∃ e, bam_total_reads lines = Except.error e := by
  have := btrGo_error_of_bad lines 0 h
  simpa [bam_total_reads] using this

/-- Witness for C7: a three-field line makes `bam_total_reads` fail. -/
theorem bam_total_reads_error_witness :
    ∃ e, bam_total_reads ["chr1 1000 5 2", "chr2 500 7"] = Except.error e :=
  bam_total_reads_error_of_malformed ["chr1 1000 5 2", "chr2 500 7"]
    ⟨"chr2 500 7", by decide, by decide⟩

/-- **C9, counterexample.** The code does not force read counts to be
non-negative: on the (well-formed) stats line `"chr1 100 -5 0"`,
`bam_total_reads` returns `-5`, a negative integer. -/
theorem bam_total_reads_negative_counterexample :
    bam_total_reads ["chr1 100 -5 0"] = Except.ok (-5) ∧ (-5 : Int) < 0 :=
  ⟨rfl, by decide⟩

/-- **C9, amended.** Whenever every stats line is well formed and its mapped
count (the parsed third field) is non-negative — as is always the case for
genuine `idxstats` output — `bam_total_reads` returns a non-negative
integer. -/
theorem bam_total_reads_nonneg_of_nonneg_counts (lines : List String)
    (h : ∀ l ∈ lines, lineWellFormed l ∧ 0 ≤ mappedOf l) :
    ∃ n : Int, bam_total_reads lines = Except.ok n ∧ 0 ≤ n := by
  have hok := btrGo_ok_of_wf lines 0 (fun l hl => (h l hl).1)
  refine ⟨(lines.map mappedOf).sum, by simpa [bam_total_reads] using hok, ?_⟩
  apply List.sum_nonneg
  intro x hx
  obtain ⟨l, hl, rfl⟩ := List.mem_map.mp hx
  exact (h l hl).2

/-- Witness for the amended C9 on a concrete input. -/
theorem bam_total_reads_nonneg_witness :
    ∃ n : Int, bam_total_reads ["chrX 99 8 1", "chrY 11 0 0"] = Except.ok n ∧ 0 ≤ n :=
  bam_total_reads_nonneg_of_nonneg_counts ["chrX 99 8 1", "chrY 11 0 0"] (by decide)

/-! ## Freshness helper and IndexManager theorems -/

theorem is_newer_than_eq_true (fs : FS) (t o : String) :
    is_newer_than fs t o = true ↔ fs.isfile t = true ∧ fs.mtime o ≤ fs.mtime t := by
  unfold is_newer_than
  by_cases h : fs.isfile t <;> simp [h]

theorem ensure_fast (pysamIndex : FS → String → FS) (fs : FS) (bam_fname : String)
    (h : is_newer_than fs (candidateIndexPath fs bam_fname) bam_fname = true) :
    ensure_bam_index pysamIndex fs bam_fname =
      ⟨Except.ok (candidateIndexPath fs bam_fname), fs, false⟩ := by
  have hfile := ((is_newer_than_eq_true fs _ bam_fname).mp h).1
  unfold ensure_bam_index
  simp [h, hfile]

theorem ensure_regen (pysamIndex : FS → String → FS) (fs : FS) (bam_fname : String)
    (h : is_newer_than fs (candidateIndexPath fs bam_fname) bam_fname = false) :
    ensure_bam_index pysamIndex fs bam_fname =
      (if (pysamIndex fs bam_fname).isfile (bam_fname ++ ".bai") then
        ⟨Except.ok (bam_fname ++ ".bai"), pysamIndex fs bam_fname, true⟩
      else
        ⟨Except.error ("Failed to generate index " ++ (bam_fname ++ ".bai")),
          pysamIndex fs bam_fname, true⟩ : IndexResult) := by
  unfold ensure_bam_index
  simp [h]

/-- **C8.** `is_newer_than` returns `false` when the target is not a file;
when the target is a file it returns `true` exactly when the target's
modification time is ≥ the reference's, and in particular equal timestamps
yield `true`. -/
theorem is_newer_than_spec (fs : FS) (target orig : String) :
    (fs.isfile target = false → is_newer_than fs target orig = false) ∧
    (fs.isfile target = true →
      (is_newer_than fs target orig = true ↔ fs.mtime orig ≤ fs.mtime target)) ∧
    (fs.isfile target = true → fs.mtime target = fs.mtime orig →
      is_newer_than fs target orig = true) :=
  ⟨fun h => by simp [is_newer_than, h],
   fun h => by simp [is_newer_than, h],
   fun h h2 => by simp [is_newer_than, h, h2]⟩

/-- A filesystem with a BAM file and an equally fresh primary index. -/
def fsFresh : FS where
  isfile := fun s => s == "a.bam" || s == "a.bam.bai"
  mtime := fun _ => 7

/-- Witness for C8: equal timestamps yield `true` (inclusive boundary). -/
theorem is_newer_than_spec_witness :
    is_newer_than fsFresh "a.bam.bai" "a.bam" = true :=
  (is_newer_than_spec fsFresh "a.bam.bai" "a.bam").2.2 (by decide) rfl

/-- **C5.** The candidate index path is `<file>.bai` when that file exists,
otherwise the file name with its last character replaced by `i`; a run that
does not regenerate returns the candidate, and whenever regeneration occurs
any returned path is the primary convention `<file>.bai`. -/
theorem ensure_bam_index_candidate_selection (pysamIndex : FS → String → FS)
    (fs : FS) (bam_fname : String) :
    (fs.isfile (bam_fname ++ ".bai") = true →
      candidateIndexPath fs bam_fname = bam_fname ++ ".bai") ∧
    (fs.isfile (bam_fname ++ ".bai") = false →
      candidateIndexPath fs bam_fname = bam_fname.dropRight 1 ++ "i") ∧
    ((ensure_bam_index pysamIndex fs bam_fname).regenerated = false →
      (ensure_bam_index pysamIndex fs bam_fname).result =
        Except.ok (candidateIndexPath fs bam_fname)) ∧
    ((ensure_bam_index pysamIndex fs bam_fname).regenerated = true →
      ∀ p, (ensure_bam_index pysamIndex fs bam_fname).result = Except.ok p →
        p = bam_fname ++ ".bai") := by
  refine ⟨fun h => by simp [candidateIndexPath, h],
          fun h => by simp [candidateIndexPath, h], ?_, ?_⟩ <;>
    by_cases hnew : is_newer_than fs (candidateIndexPath fs bam_fname) bam_fname
  · rw [ensure_fast pysamIndex fs bam_fname hnew]
    intro _
    rfl
  · rw [ensure_regen pysamIndex fs bam_fname (by simpa using hnew)]
    by_cases hgen : (pysamIndex fs bam_fname).isfile (bam_fname ++ ".bai") <;>
      simp [hgen]
  · rw [ensure_fast pysamIndex fs bam_fname hnew]
    intro h
    simp at h
  · rw [ensure_regen pysamIndex fs bam_fname (by simpa using hnew)]
    by_cases hgen : (pysamIndex fs bam_fname).isfile (bam_fname ++ ".bai") <;>
      simp [hgen]

/-- A filesystem with a BAM file and a fresh primary index `b.bam.bai`. -/
def fsPrimary : FS where
  isfile := fun s => s == "b.bam" || s == "b.bam.bai"
  mtime := fun s => if s == "b.bam.bai" then 9 else 2

/-- A `pysam.index` model that does nothing (a broken indexing tool). -/
def pysamNoop : FS → String → FS := fun g _ => g

/-- Witness for C5: with `b.bam.bai` present, the candidate is `b.bam.bai`. -/
theorem ensure_bam_index_candidate_selection_witness :
    candidateIndexPath fsPrimary "b.bam" = "b.bam" ++ ".bai" :=
  (ensure_bam_index_candidate_selection pysamNoop fsPrimary "b.bam").1 (by decide)

/-- **C6.** If regeneration occurred and `<file>.bai` still does not exist,
`ensure_bam_index` fails with the assertion-style `GenerationError`; and it
never returns a path that is not a file in the resulting filesystem state. -/
theorem ensure_bam_index_assert (pysamIndex : FS → String → FS) (fs : FS)
    (bam_fname : String) :
    ((ensure_bam_index pysamIndex fs bam_fname).regenerated = true →
      (ensure_bam_index pysamIndex fs bam_fname).fs.isfile (bam_fname ++ ".bai") = false →
      (ensure_bam_index pysamIndex fs bam_fname).result =
        Except.error ("Failed to generate index " ++ (bam_fname ++ ".bai"))) ∧
    (∀ p, (ensure_bam_index pysamIndex fs bam_fname).result = Except.ok p →
      (ensure_bam_index pysamIndex fs bam_fname).fs.isfile p = true) := by
  constructor <;>
    by_cases hnew : is_newer_than fs (candidateIndexPath fs bam_fname) bam_fname
  · rw [ensure_fast pysamIndex fs bam_fname hnew]
    intro h
    simp at h
  · rw [ensure_regen pysamIndex fs bam_fname (by simpa using hnew)]
    by_cases hgen : (pysamIndex fs bam_fname).isfile (bam_fname ++ ".bai") <;>
      simp [hgen]
  · rw [ensure_fast pysamIndex fs bam_fname hnew]
    intro p hp
    have hfile := ((is_newer_than_eq_true fs _ bam_fname).mp hnew).1
    simp at hp
    rw [← hp]
    exact hfile
  · rw [ensure_regen pysamIndex fs bam_fname (by simpa using hnew)]
    by_cases hgen : (pysamIndex fs bam_fname).isfile (bam_fname ++ ".bai") <;>
      simp [hgen]

/-- A filesystem holding nothing at all. -/
def fsEmpty : FS where
  isfile := fun _ => false
  mtime := fun _ => 0

/-- Witness for C6: with a broken indexing tool, `ensure_bam_index` fails
with the generation error. -/
theorem ensure_bam_index_assert_witness :
    (ensure_bam_index pysamNoop fsEmpty "a.bam").result =
      Except.error ("Failed to generate index " ++ ("a.bam" ++ ".bai")) :=
  (ensure_bam_index_assert pysamNoop fsEmpty "a.bam").1 rfl rfl

/-- **C10.** Whenever `<file>.bai` exists, it is the candidate (the fallback
is never consulted or returned): any returned path is `<file>.bai`, and a
stale `<file>.bai` triggers regeneration regardless of the fallback's state. -/
theorem ensure_bam_index_primary_priority (pysamIndex : FS → String → FS)
    (fs : FS) (bam_fname : String)
    (h : fs.isfile (bam_fname ++ ".bai") = true) :
    candidateIndexPath fs bam_fname = bam_fname ++ ".bai" ∧
    (∀ p, (ensure_bam_index pysamIndex fs bam_fname).result = Except.ok p →
      p = bam_fname ++ ".bai") ∧
    (fs.mtime (bam_fname ++ ".bai") < fs.mtime bam_fname →
      (ensure_bam_index pysamIndex fs bam_fname).regenerated = true) := by
  have hcand : candidateIndexPath fs bam_fname = bam_fname ++ ".bai" := by
    simp [candidateIndexPath, h]
  refine ⟨hcand, ?_, ?_⟩
  · by_cases hnew : is_newer_than fs (candidateIndexPath fs bam_fname) bam_fname
    · rw [ensure_fast pysamIndex fs bam_fname hnew]
      intro p hp
      simp at hp
      rw [← hp, hcand]
    · rw [ensure_regen pysamIndex fs bam_fname (by simpa using hnew)]
      by_cases hgen : (pysamIndex fs bam_fname).isfile (bam_fname ++ ".bai") <;>
        simp [hgen]
  · intro hstale
    have hnew : is_newer_than fs (candidateIndexPath fs bam_fname) bam_fname = false := by
      rw [hcand]
      unfold is_newer_than
      simp [h]
      omega
    rw [ensure_regen pysamIndex fs bam_fname hnew]
    by_cases hgen : (pysamIndex fs bam_fname).isfile (bam_fname ++ ".bai") <;>
      simp [hgen]

/-- A filesystem where the primary index `c.bam.bai` is stale while the
fallback `c.bai` exists and is newer than the BAM. -/
def fsStaleWithFallback : FS where
  isfile := fun s => s == "c.bam" || s == "c.bam.bai" || s == "c.bai"
  mtime := fun s => if s == "c.bam.bai" then 1 else if s == "c.bai" then 99 else 5

/-- Witness for C10: a stale `c.bam.bai` forces regeneration even though the
fallback `c.bai` exists and is newer than the BAM. -/
theorem ensure_bam_index_primary_priority_witness :
    candidateIndexPath fsStaleWithFallback "c.bam" = "c.bam" ++ ".bai" ∧
    (ensure_bam_index pysamNoop fsStaleWithFallback "c.bam").regenerated = true := by
  have h := ensure_bam_index_primary_priority pysamNoop fsStaleWithFallback "c.bam" (by decide)
  exact ⟨h.1, h.2.2 (by decide)⟩

/-- **C2.** The fast path: when the candidate index exists with modification
time ≥ the BAM's, `ensure_bam_index` returns the candidate's path with no
regeneration and no filesystem change.  Consequently — provided the external
indexer writes `<file>.bai` no older than the BAM and leaves the BAM's
timestamp alone — two calls in succession on an unchanged file return the
same path and the second call never regenerates. -/
theorem ensure_bam_index_idempotent (pysamIndex : FS → String → FS) (fs : FS)
    (bam_fname : String)
    (hidx : ∀ g : FS,
      (pysamIndex g bam_fname).isfile (bam_fname ++ ".bai") = true ∧
      g.mtime bam_fname ≤ (pysamIndex g bam_fname).mtime (bam_fname ++ ".bai") ∧
      (pysamIndex g bam_fname).mtime bam_fname = g.mtime bam_fname) :
    (fs.isfile (candidateIndexPath fs bam_fname) = true →
      fs.mtime bam_fname ≤ fs.mtime (candidateIndexPath fs bam_fname) →
      ensure_bam_index pysamIndex fs bam_fname =
        ⟨Except.ok (candidateIndexPath fs bam_fname), fs, false⟩) ∧
    (∃ p, (ensure_bam_index pysamIndex fs bam_fname).result = Except.ok p ∧
      ensure_bam_index pysamIndex (ensure_bam_index pysamIndex fs bam_fname).fs bam_fname =
        ⟨Except.ok p, (ensure_bam_index pysamIndex fs bam_fname).fs, false⟩) := by
  constructor
  · intro hfile hmt
    exact ensure_fast pysamIndex fs bam_fname
      ((is_newer_than_eq_true fs _ bam_fname).mpr ⟨hfile, hmt⟩)
  · by_cases hnew : is_newer_than fs (candidateIndexPath fs bam_fname) bam_fname
    · -- first call takes the fast path; the second is the very same call
      have h1 := ensure_fast pysamIndex fs bam_fname hnew
      exact ⟨candidateIndexPath fs bam_fname, by rw [h1], by rw [h1]; exact h1⟩
    · -- first call regenerates; the fresh index makes the second call fast
      obtain ⟨hgen, hmt, hbam⟩ := hidx fs
      have h1 := ensure_regen pysamIndex fs bam_fname (by simpa using hnew)
      rw [if_pos hgen] at h1
      refine ⟨bam_fname ++ ".bai", by rw [h1], ?_⟩
      rw [h1]
      have hcand : candidateIndexPath (pysamIndex fs bam_fname) bam_fname =
          bam_fname ++ ".bai" := by
        simp [candidateIndexPath, hgen]
      have h2 := ensure_fast pysamIndex (pysamIndex fs bam_fname) bam_fname
        ((is_newer_than_eq_true _ _ bam_fname).mpr
          ⟨by rw [hcand]; exact hgen, by rw [hcand, hbam]; exact hmt⟩)
      rw [h2, hcand]

/-- A well-behaved `pysam.index` model: it creates `<file>.bai` with a
timestamp one tick after the BAM's and touches nothing else. -/
def pysamIndexModel : FS → String → FS := fun g b =>
  { isfile := fun s => s == b ++ ".bai" || g.isfile s
    mtime := fun s => if s == b ++ ".bai" then g.mtime b + 1 else g.mtime s }

/-- A filesystem with a BAM file `d.bam` whose index `d.bam.bai` is stale. -/
def fsStale : FS where
  isfile := fun s => s == "d.bam" || s == "d.bam.bai"
  mtime := fun s => if s == "d.bam.bai" then 1 else 5

/-- Witness for C2: starting from a stale index, the first call regenerates
and the second call returns the same path without regenerating. -/
theorem ensure_bam_index_idempotent_witness :
    ∃ p, (ensure_bam_index pysamIndexModel fsStale "d.bam").result = Except.ok p ∧
      ensure_bam_index pysamIndexModel
          (ensure_bam_index pysamIndexModel fsStale "d.bam").fs "d.bam" =
        ⟨Except.ok p, (ensure_bam_index pysamIndexModel fsStale "d.bam").fs, false⟩ :=
  (ensure_bam_index_idempotent pysamIndexModel fsStale "d.bam"
    (fun g => ⟨by simp [pysamIndexModel], by simp [pysamIndexModel],
      by simp [pysamIndexModel]⟩)).2

/-! ## SortChecker lemmas -/

/-- `charsLe` is the (non-strict) lexicographic order on code points. -/
theorem charsLe_iff : ∀ as bs : List Char,
    charsLe as bs = true ↔ (as = bs ∨ List.Lex (· < ·) as bs) := by
  intro as
  induction as with
  | nil =>
    intro bs
    cases bs with
    | nil => simp [charsLe]
    | cons b bs => simp [charsLe, List.Lex.nil]
  | cons a as ih =>
    intro bs
    cases bs with
    | nil =>
      simp only [charsLe]
      constructor
      · intro h; simp at h
      · rintro (h | h)
        · simp at h
        · exact absurd h (List.Lex.not_nil_right _ _)
    | cons b bs =>
      simp only [charsLe]
      by_cases hab : a < b
      · simp only [if_pos hab]
        constructor
        · intro _; exact Or.inr (List.Lex.rel hab)
        · intro _; trivial
      · by_cases hba : b < a
        · simp only [if_neg hab, if_pos hba]
          constructor
          · intro h; simp at h
          · rintro (h | h)
            · rw [List.cons.injEq] at h
              exact absurd (h.1 ▸ hba) (lt_irrefl a)
            · cases h with
              | rel h' => exact absurd h' hab
              | cons h' => exact absurd hba (lt_irrefl a)
        · have hEq : a = b := le_antisymm (not_lt.mp hba) (not_lt.mp hab)
          subst hEq
          simp only [if_neg hab, if_neg hba, ih bs, List.cons.injEq, true_and]
          constructor
          · rintro (h | h)
            · exact Or.inl h
            · exact Or.inr (List.Lex.cons h)
          · rintro (h | h)
            · exact Or.inl h
            · exact Or.inr (List.Lex.cons_iff.mp h)

/-- The code's `out_of_order` predicate, on an actual predecessor, is the
negation of the spec's pairwise ordering predicate. -/
theorem out_of_order_eq_false_iff (bn : Bool) (r p : Read) :
    out_of_order bn r (some p) = false ↔ specPairOk bn p r := by
  cases bn with
  | true =>
    have h1 : out_of_order true r (some p) = !(strLe p.qname r.qname) := rfl
    have h2 : specPairOk true p r =
        (p.qname.data = r.qname.data ∨ List.Lex (· < ·) p.qname.data r.qname.data) := rfl
    rw [h1, h2, ← charsLe_iff]
    unfold strLe
    cases h : charsLe p.qname.data r.qname.data <;> simp [h]
  | false =>
    simp only [out_of_order, specPairOk]
    simp [Decidable.or_iff_not_imp_left]

/-- The scan loop, started after record `p`, accepts exactly the chains of
the spec's pairwise predicate from `p`. -/
theorem sortedGo_some_iff (bn : Bool) : ∀ (l : List Read) (p : Read),
    sortedGo bn (some p) l = true ↔ List.Chain (specPairOk bn) p l := by
  intro l
  induction l with
  | nil => intro p; simp [sortedGo]
  | cons r rest ih =>
    intro p
    rw [List.chain_cons, ← ih r, ← out_of_order_eq_false_iff]
    simp only [sortedGo]
    cases h : out_of_order bn r (some p) <;> simp [h]

/-- `ensure_bam_sorted` holds exactly when the sampled first `span` records
are chained by the spec's pairwise ordering predicate. -/
theorem ensure_bam_sorted_iff_chain (reads : List Read) (bn : Bool) (span : Nat) :
    ensure_bam_sorted reads bn span = true ↔
      List.Chain' (specPairOk bn) (reads.take span) := by
  unfold ensure_bam_sorted
  cases h : reads.take span with
  | nil => simp [sortedGo, List.Chain']
  | cons r rest =>
    have : sortedGo bn none (r :: rest) = sortedGo bn (some r) rest := by
      simp [sortedGo, out_of_order]
    rw [this, sortedGo_some_iff]
    exact Iff.rfl

/-! ## SortChecker theorems -/

/-- **C3.** `ensure_bam_sorted` evaluates the specified pairwise predicate
over consecutive records of the sampled first `span` records: with
`by_name`, non-decreasing query names under lexicographic order; otherwise a
different reference id or non-decreasing position.  In particular
`[(ref 0, pos 10), (ref 0, pos 20), (ref 1, pos 5)]` is accepted and
`[(ref 0, pos 20), (ref 0, pos 10)]` is rejected. -/
theorem ensure_bam_sorted_pairwise_spec :
    (∀ (reads : List Read) (bn : Bool) (span : Nat),
      ensure_bam_sorted reads bn span = true ↔
        List.Chain' (specPairOk bn) (reads.take span)) ∧
    ensure_bam_sorted [⟨"r1", 0, 10⟩, ⟨"r2", 0, 20⟩, ⟨"r3", 1, 5⟩] false 50 = true ∧
    ensure_bam_sorted [⟨"r1", 0, 20⟩, ⟨"r2", 0, 10⟩] false 50 = false :=
  ⟨ensure_bam_sorted_iff_chain, by decide, by decide⟩

/-- Witness for C3: the characterization instantiated on a concrete record
sequence. -/
theorem ensure_bam_sorted_pairwise_spec_witness :
    ensure_bam_sorted [⟨"rA", 0, 3⟩, ⟨"rB", 0, 8⟩] false 50 = true ↔
      List.Chain' (specPairOk false) ([⟨"rA", 0, 3⟩, ⟨"rB", 0, 8⟩].take 50) :=
  ensure_bam_sorted_pairwise_spec.1 [⟨"rA", 0, 3⟩, ⟨"rB", 0, 8⟩] false 50

/-- **C4.** `ensure_bam_sorted` inspects only the first `span` (default 50)
records: the result is determined by that sampled part; it returns `false`
whenever an out-of-order consecutive pair occurs within the sample, no
matter what follows it (short-circuit); and it returns `true` on an empty
sequence, a single record, or a fully ordered sample, in either mode. -/
theorem ensure_bam_sorted_sampling_spec :
    (∀ (reads reads' : List Read) (bn : Bool) (span : Nat),
      reads.take span = reads'.take span →
      ensure_bam_sorted reads bn span = ensure_bam_sorted reads' bn span) ∧
    (∀ (bn : Bool) (span : Nat) (l1 : List Read) (p r : Read) (l2 : List Read),
      l1.length + 2 ≤ span → ¬ specPairOk bn p r →
      ensure_bam_sorted (l1 ++ p :: r :: l2) bn span = false) ∧
    (∀ (bn : Bool) (span : Nat), ensure_bam_sorted [] bn span = true) ∧
    (∀ (bn : Bool) (span : Nat) (r : Read), ensure_bam_sorted [r] bn span = true) ∧
    (∀ (bn : Bool) (span : Nat) (reads : List Read),
      List.Chain' (specPairOk bn) (reads.take span) →
      ensure_bam_sorted reads bn span = true) := by
  refine ⟨?_, ?_, ?_, ?_, ?_⟩
  · intro reads reads' bn span h
    unfold ensure_bam_sorted
    rw [h]
  · intro bn span l1 p r l2 hlen hbad
    rcases Bool.eq_false_or_eq_true (ensure_bam_sorted (l1 ++ p :: r :: l2) bn span)
      with h | h
    swap
    · exact h
    exfalso
    have hchain := (ensure_bam_sorted_iff_chain _ bn span).mp h
    obtain ⟨k, hk⟩ : ∃ k, span - l1.length = k + 2 :=
      ⟨span - l1.length - 2, by omega⟩
    rw [List.take_append_eq_append_take, List.take_of_length_le (by omega), hk,
      List.take_succ_cons, List.take_succ_cons] at hchain
    have := List.chain'_append_cons_cons.mp hchain
    exact hbad this.2.1
  · intro bn span
    simp [ensure_bam_sorted, sortedGo]
  · intro bn span r
    unfold ensure_bam_sorted
    cases span with
    | zero => simp [sortedGo]
    | succ n => simp [sortedGo, out_of_order]
  · intro bn span reads h
    exact (ensure_bam_sorted_iff_chain reads bn span).mpr h

/-- Witness for C4: the out-of-order pair `(pos 20, pos 10)` at the head of
the sample forces `false` regardless of the records after it. -/
theorem ensure_bam_sorted_sampling_witness :
    ensure_bam_sorted ([] ++ ⟨"r1", 0, 20⟩ :: ⟨"r2", 0, 10⟩ :: [⟨"r3", 0, 30⟩])
      false 50 = false :=
  ensure_bam_sorted_sampling_spec.2.1 false 50 [] ⟨"r1", 0, 20⟩ ⟨"r2", 0, 10⟩
    [⟨"r3", 0, 30⟩] (by decide) (by decide)

end Samutil
